import Mathlib

/-!
A shallow embedding, in Lean 4, of the multi-account synchronization and
classification engine of the finance-tracker repository (`sync.py`,
`bank_accounts.py`), together with theorems about its deduplication,
classification, registry and legacy-migration behaviour.

Conventions of the embedding:
* Python strings are `String`; only the ASCII fragment of `str.lower` and of
  the regex classes `\w`/`\s` is modelled (every string the program actually
  manipulates here is ASCII).
* Python's substring test `sub in s` is `strContains s sub`.
* A spreadsheet cell is `Cell` (a string, a number, or None); a sheet is a
  `List (List Cell)` whose first row is the header row.
* Fallible external calls (Plaid fetches, sheet reads, renames) are modelled
  by `Except`/`Bool` parameters supplied by the environment.
-/

/-- ASCII lowering of one character, as Python `str.lower` acts on ASCII. -/
def lowerChar (c : Char) : Char :=
  if 'A' ≤ c ∧ c ≤ 'Z' then Char.ofNat (c.toNat + 32) else c

/-- Python `s.lower()` on ASCII strings. -/
def pyLower (s : String) : String := ⟨s.data.map lowerChar⟩

/-- Does the pattern list occur at the head of the second list? -/
def listStartsWith : List Char → List Char → Bool
  | [], _ => true
  | _ :: _, [] => false
  | p :: ps, c :: cs => p == c && listStartsWith ps cs

/-- Does the pattern list occur as a contiguous sublist? -/
def listContainsSub (p : List Char) : List Char → Bool
  | [] => p.isEmpty
  | c :: cs => listStartsWith p (c :: cs) || listContainsSub p cs

/-- Python's substring containment `sub in s`. -/
def strContains (s sub : String) : Bool := listContainsSub sub.data s.data

/-- One transaction as returned by the transaction source (`transactions_get`). -/
structure Txn where
  transaction_id : String
  date : String
  name : Option String
  amount : Int
deriving DecidableEq

/-- The category/project pair assigned by the classifier. -/
structure Tags where
  category : String
  project : String
deriving DecidableEq

/-- The subcontractor keyword table of `categorize_transaction` (`sync.py`),
in source order (Python dicts iterate in insertion order). -/
def SUBCONTRACTOR_DATABASE : List (String × String) :=
  [("all-pro plumbing", "Plumbing"),
   ("j&l electric", "Electrical"),
   ("sal\u0027s drywall", "Drywall & Paint"),
   ("creative landscape", "Landscaping"),
   ("best quality roofing", "Roofing"),
   ("a-1 painting", "Drywall & Paint"),
   ("precision framing", "Framing"),
   ("elite concrete", "Concrete & Foundation"),
   ("custom cabinetry", "Cabinets & Millwork"),
   ("total home insulation", "Insulation"),
   ("flores tile & stone", "Flooring & Tile"),
   ("window world", "Windows & Doors")]

/-- `name = txn.name.lower() if txn.name else ""` (None and `""` are falsy). -/
def loweredName (t : Txn) : String :=
  match t.name with
  | some s => if s = "" then "" else pyLower s
  | none => ""

/-- `categorize_transaction` from `sync.py`: the ordered if-chain over the
lower-cased description. -/
def categorize_transaction (t : Txn) : Tags :=
  let name := loweredName t
  if strContains name "quickbooks" || strContains name "intuit" then
    ⟨"QuickBooks Bill Pay", "NEEDS REVIEW"⟩
  else if strContains name "zelle" then
    ⟨"Zelle Payment", "Bellevue"⟩
  else if strContains name "check #" then
    ⟨"Subcontractor Payout", "Bellevue"⟩
  else
    match SUBCONTRACTOR_DATABASE.find? (fun p => strContains name p.1) with
    | some p => ⟨p.2, "Bellevue"⟩
    | none =>
      if ["home depot", "lowe\u0027s", "sherwin-williams"].any (fun v => strContains name v) then
        ⟨"Materials", "Bellevue"⟩
      else if ["sunbelt", "united rentals"].any (fun v => strContains name v) then
        ⟨"Equipment Rental", "Bellevue"⟩
      else if ["chevron", "shell", "76"].any (fun v => strContains name v) then
        ⟨"Fuel", "Admin"⟩
      else
        ⟨"Uncategorized", "Unknown"⟩

/-- The classifier's rule chain as an ordered list of (predicate, tags)
pairs, in the order the source lists them. -/
def classifierRules : List ((String → Bool) × Tags) :=
  [(fun n => strContains n "quickbooks" || strContains n "intuit",
    ⟨"QuickBooks Bill Pay", "NEEDS REVIEW"⟩),
   (fun n => strContains n "zelle", ⟨"Zelle Payment", "Bellevue"⟩),
   (fun n => strContains n "check #", ⟨"Subcontractor Payout", "Bellevue"⟩)]
  ++ SUBCONTRACTOR_DATABASE.map
      (fun p => (fun n => strContains n p.1, Tags.mk p.2 "Bellevue"))
  ++ [(fun n => ["home depot", "lowe\u0027s", "sherwin-williams"].any (fun v => strContains n v),
       ⟨"Materials", "Bellevue"⟩),
      (fun n => ["sunbelt", "united rentals"].any (fun v => strContains n v),
       ⟨"Equipment Rental", "Bellevue"⟩),
      (fun n => ["chevron", "shell", "76"].any (fun v => strContains n v),
       ⟨"Fuel", "Admin"⟩)]

/-- First-match-wins evaluation of an ordered rule list with a default. -/
def firstMatch : List ((String → Bool) × Tags) → Tags → String → Tags
  | [], dflt, _ => dflt
  | r :: rs, dflt, n => if r.1 n then r.2 else firstMatch rs dflt n

/-- A spreadsheet cell value: what the Sheets API stores in one cell of a
row produced by the sync (a string, a number, or a missing value). -/
inductive Cell where
  | str : String → Cell
  | num : Int → Cell
  | null : Cell
deriving DecidableEq

/-- The row written for one new transaction
(`[t.transaction_id, t.date.isoformat(), t.name, t.amount, category, project]`). -/
def buildRow (t : Txn) : List Cell :=
  [Cell.str t.transaction_id, Cell.str t.date,
   (match t.name with | some s => Cell.str s | none => Cell.null),
   Cell.num t.amount,
   Cell.str (categorize_transaction t).category,
   Cell.str (categorize_transaction t).project]

/-- The fixed header row written by `create_sheet_if_not_exists`. -/
def header_row : List Cell :=
  [Cell.str "transaction_id", Cell.str "date", Cell.str "name",
   Cell.str "amount", Cell.str "category", Cell.str "project"]

/-- `get_existing_transaction_ids` (`sync.py`): read column A, skip the
header row, keep `row[0]` of every non-empty row.  The Python set is
modelled by a list used only through membership. -/
def get_existing_transaction_ids (values : List (List Cell)) : List Cell :=
  (values.drop 1).filterMap List.head?

/-- The same read when the underlying API call can fail: any exception is
caught and the empty set is returned. -/
def get_existing_transaction_ids_r (r : Except String (List (List Cell))) : List Cell :=
  match r with
  | Except.ok values => get_existing_transaction_ids values
  | Except.error _ => []

/-- The per-account transaction loop of `main` (`sync.py`): walk the fetched
transactions in order, appending a classified row for each one whose
`transaction_id` is not in the dedup frontier. -/
def collectNew (frontier : List Cell) (ts : List Txn) : List (List Cell) :=
  ts.foldl
    (fun acc t =>
      if Cell.str t.transaction_id ∈ frontier then acc else acc ++ [buildRow t])
    []

/-- `create_sheet_if_not_exists`: an absent sheet is created holding exactly
the header row; an existing sheet is left as it is. -/
def ensure_rows : Option (List (List Cell)) → List (List Cell)
  | none => [header_row]
  | some v => v

/-- One sync pass over one account's sheet: ensure the sheet exists, read
the dedup frontier, and append the rows of the not-yet-recorded fetched
transactions (appending nothing when there are none). -/
def syncPass (s : Option (List (List Cell))) (fetched : List Txn) : List (List Cell) :=
  let rows := ensure_rows s
  rows ++ collectNew (get_existing_transaction_ids rows) fetched

/-- One sync pass in which the frontier read may fail: the failure is
swallowed and the pass proceeds with an empty frontier over the same
(unchanged) sheet rows. -/
def syncPassFallible (rows : List (List Cell))
    (readRes : Except String (List (List Cell))) (fetched : List Txn) :
    List (List Cell) :=
  rows ++ collectNew (get_existing_transaction_ids_r readRes) fetched

/-- One registered account as the orchestrator's sweep sees it:
its registry key and its resolved destination sheet name. -/
structure AccountRef where
  account_id : String
  sheet_name : String
deriving DecidableEq

/-- The mutable state the sweep acts on: the spreadsheet (sheet name to row
list, absent when the sheet does not exist) and the registry's
`last_sync` timestamps (account id to timestamp). -/
structure SheetsState where
  sheets : String → Option (List (List Cell))
  last_sync : String → Option String

/-- The body of the per-account loop of `main` (`sync.py`).  The sheet is
created (with the header) before the fetch; a fetch error leaves everything
else untouched and moves to the next account; `update_last_sync` runs only
in the branch that appended a non-empty batch. -/
def syncStep (now : String) (fetch : String → Except String (List Txn))
    (st : SheetsState) (a : AccountRef) : SheetsState :=
  let rows := ensure_rows (st.sheets a.sheet_name)
  let st1 : SheetsState :=
    { st with sheets := fun n => if n = a.sheet_name then some rows else st.sheets n }
  match fetch a.account_id with
  | Except.error _ => st1
  | Except.ok txns =>
    let newRows := collectNew (get_existing_transaction_ids rows) txns
    if newRows = [] then st1
    else
      { sheets := fun n => if n = a.sheet_name then some (rows ++ newRows) else st.sheets n,
        last_sync := fun i => if i = a.account_id then some now else st.last_sync i }

/-- The sweep of `main` over all registered accounts, in registry order. -/
def sweep (now : String) (fetch : String → Except String (List Txn))
    (st : SheetsState) (accounts : List AccountRef) : SheetsState :=
  accounts.foldl (syncStep now fetch) st

/-- A concrete transaction used in the worked examples. -/
def txA : Txn := ⟨"t1", "2025-05-01", some "HOME DEPOT #123", 250⟩

/-- A second concrete transaction used in the worked examples. -/
def txB : Txn := ⟨"t2", "2025-05-02", some "ZELLE TRANSFER TO J SMITH", 90⟩

/-- The decimal digit character for `d` (`0`..`9` for `d` below ten). -/
def digitChar (d : Nat) : Char := Char.ofNat (48 + d)

/-- Fuelled most-significant-first decimal digit writer; with fuel at least
`n` it renders exactly the decimal digits of `n` (see `natReprAux_eq_digits`). -/
def natReprAux : Nat → Nat → List Char
  | 0, _ => []
  | fuel + 1, n => if n = 0 then [] else natReprAux fuel (n / 10) ++ [digitChar (n % 10)]

/-- Python's decimal rendering of a non-negative integer (`str(n)` or
an f-string placeholder). -/
def natRepr (n : Nat) : String := if n = 0 then "0" else ⟨natReprAux n n⟩

/-- Characters kept by `re.sub(r'[^\w\s-]', '', ...)` (ASCII fragment):
word characters, whitespace, and the hyphen. -/
def keepChar (c : Char) : Bool :=
  (c.isAlphanum || c = '_') || c.isWhitespace || c = '-'

/-- `re.sub(r'\s+', ' ', ...)`: replace every maximal whitespace run by one
space.  The flag records whether the previous character was whitespace. -/
def collapseWs : Bool → List Char → List Char
  | _, [] => []
  | prevWs, c :: cs =>
    if c.isWhitespace then
      (if prevWs then collapseWs true cs else ' ' :: collapseWs true cs)
    else c :: collapseWs false cs

/-- Python `str.strip()`: drop leading and trailing whitespace. -/
def trimWs (l : List Char) : List Char :=
  ((l.dropWhile Char.isWhitespace).reverse.dropWhile Char.isWhitespace).reverse

/-- The candidate name `f"{original_name} {counter}"` tried by the
collision loop of `_generate_sheet_name`. -/
def candName (orig : String) (counter : Nat) : String :=
  orig ++ " " ++ natRepr counter

/-- The `while clean_name in existing_sheets` loop of `_generate_sheet_name`,
trying `orig 1`, `orig 2`, … and returning the first candidate not already
taken.  The loop in the source is unbounded; `existing.length + 1` tries
provably suffice (`exists_candName_free`), so the fuelled form has the same
value as the loop. -/
def searchFreeFuel (existing : List String) (orig : String) : Nat → Nat → String
  | counter, 0 => candName orig counter
  | counter, fuel + 1 =>
    if candName orig counter ∈ existing then
      searchFreeFuel existing orig (counter + 1) fuel
    else candName orig counter

/-- The length cap of `_generate_sheet_name`: a name longer than 100
characters is cut to its first 97 characters plus a literal `"..."`. -/
def capLength (clean : String) : String :=
  if 100 < clean.length then (⟨clean.data.take 97⟩ : String) ++ "..." else clean

/-- The sanitize-and-cap part of `_generate_sheet_name`: choose
`account_name or institution_name`, strip disallowed characters, collapse
whitespace runs, trim, and cap at 100 characters (97 plus `"..."`). -/
def clean_base_name (institution_name : String) (account_name : Option String) : String :=
  let base :=
    match account_name with
    | some s => if s = "" then institution_name else s
    | none => institution_name
  capLength ⟨trimWs (collapseWs false (base.data.filter keepChar))⟩

/-- `_generate_sheet_name` (`bank_accounts.py`): sanitized, capped base name,
disambiguated against the live accounts' sheet names by appending
`" 1"`, `" 2"`, … until unique. -/
def generate_sheet_name (existing : List String) (institution_name : String)
    (account_name : Option String) : String :=
  let clean := clean_base_name institution_name account_name
  if clean ∈ existing then searchFreeFuel existing clean 1 (existing.length + 1)
  else clean

/-- One stored registry entry (the persisted dict value of
`_bank_accounts.json`, the sub-account list and token details elided into
the fields the engine reads). -/
structure RegAccount where
  access_token : String
  account_name : String
  institution_name : String
  sheet_name : String
  created_at : String
  last_sync : Option String
deriving DecidableEq

/-- Insert-or-replace for a Python dict kept as an insertion-ordered
association list: replacing a present key keeps its position, a fresh key
goes to the end. -/
def dictInsert (k : String) (v : RegAccount) :
    List (String × RegAccount) → List (String × RegAccount)
  | [] => [(k, v)]
  | (k', v') :: rest =>
    if k' = k then (k, v) :: rest else (k', v') :: dictInsert k v rest

/-- What `add_account` needs back from the provider (`item_get`). -/
structure PlaidInfo where
  institution_name : String
deriving DecidableEq

/-- The account id `f"account_{len(self.accounts) + 1}_{timestamp}"`. -/
def mkAccountId (k : Nat) (ts : String) : String :=
  "account_" ++ natRepr k ++ "_" ++ ts

/-- `add_account` (`bank_accounts.py`), successful path: build the id from
the current registry size and the current `%Y%m%d_%H%M%S` timestamp `ts`,
derive a unique sheet name, and store the entry.  Returns the new registry
and the assigned id. -/
def add_account (reg : List (String × RegAccount)) (access_token : String)
    (account_name : Option String) (info : PlaidInfo) (now ts : String) :
    List (String × RegAccount) × String :=
  let account_id := mkAccountId (reg.length + 1) ts
  let sheet_name :=
    generate_sheet_name (reg.map (fun p => p.2.sheet_name)) info.institution_name account_name
  let displayed :=
    match account_name with
    | some s => if s = "" then "Bank Account " ++ natRepr (reg.length + 1) else s
    | none => "Bank Account " ++ natRepr (reg.length + 1)
  let data : RegAccount :=
    { access_token := access_token, account_name := displayed,
      institution_name := info.institution_name, sheet_name := sheet_name,
      created_at := now, last_sync := none }
  (dictInsert account_id data reg, account_id)

/-- `remove_account`: delete the key if present; report whether it was. -/
def remove_account (reg : List (String × RegAccount)) (account_id : String) :
    List (String × RegAccount) × Bool :=
  if account_id ∈ reg.map Prod.fst then
    (reg.filter (fun p => p.1 ≠ account_id), true)
  else (reg, false)

/-- A registry operation: a registration (with the provider data and the
wall-clock strings it observes) or a deregistration. -/
inductive RegOp where
  | register (access_token : String) (account_name : Option String)
      (info : PlaidInfo) (now ts : String)
  | deregister (account_id : String)

/-- Run a sequence of registry operations, also logging, for every
registration, the pair (counter, timestamp) that formed its assigned id. -/
def runOps (reg : List (String × RegAccount)) :
    List RegOp → List (String × RegAccount) × List (Nat × String)
  | [] => (reg, [])
  | RegOp.register tok nm info now ts :: rest =>
    let reg' := (add_account reg tok nm info now ts).1
    let res := runOps reg' rest
    (res.1, (reg.length + 1, ts) :: res.2)
  | RegOp.deregister i :: rest => runOps (remove_account reg i).1 rest

/-- The timestamps observed by the registrations of an operation sequence. -/
def registerTsList : List RegOp → List String
  | [] => []
  | RegOp.register _ _ _ _ ts :: rest => ts :: registerTsList rest
  | RegOp.deregister _ :: rest => registerTsList rest

/-- The account ids assigned (in order) while running `ops` from `reg`. -/
def assignedIds (reg : List (String × RegAccount)) (ops : List RegOp) : List String :=
  (runOps reg ops).2.map (fun p => mkAccountId p.1 p.2)

/-- The parsed contents of the legacy `_access_token.json` file
(`legacy_data.get('access_token')` may be absent). -/
structure LegacyData where
  access_token : Option String
deriving DecidableEq

/-- The state `migrate_legacy_token` acts on: the registry, the legacy
credential file (absent once archived), and the archived backups
(filename paired with the moved contents). -/
structure SysState where
  registry : List (String × RegAccount)
  legacy : Option LegacyData
  backups : List (String × LegacyData)
deriving DecidableEq

/-- `migrate_legacy_token` (`bank_accounts.py`).  The token guard is Python's
`if not access_token: return False`, which rejects a missing key and an
empty-string token alike.  `plaid` is the outcome of the provider calls
inside `add_account` (an exception there is caught and makes `add_account`
return `False`); `renameOk` is whether `os.rename` succeeds (an exception there is caught by the outer handler after the
account was already added).  Every failure returns `False`; the legacy file
is moved (renamed to a backup, never deleted) only on full success. -/
def migrate_legacy_token (plaid : Except String PlaidInfo) (renameOk : Bool)
    (now ts bts : String) (s : SysState) : Bool × SysState :=
  match s.legacy with
  | none => (false, s)
  | some d =>
    match d.access_token with
    | none => (false, s)
    | some tok =>
      if tok = "" then (false, s)
      else
      match plaid with
      | Except.error _ => (false, s)
      | Except.ok info =>
        let reg' := (add_account s.registry tok (some "Legacy Bank Account") info now ts).1
        if renameOk then
          (true,
           { registry := reg', legacy := none,
             backups := s.backups ++ [("_access_token_backup_" ++ bts ++ ".json", d)] })
        else (false, { registry := reg', legacy := s.legacy, backups := s.backups })

/-- Concrete account A of the worked failure-isolation example. -/
def accA : AccountRef := ⟨"acctA", "SheetA"⟩

/-- Concrete account B of the worked failure-isolation example. -/
def accB : AccountRef := ⟨"acctB", "SheetB"⟩

/-- A fetch environment in which account A's fetch raises and account B's
fetch returns one transaction already recorded in B's sheet. -/
def fetchCex : String → Except String (List Txn) :=
  fun i => if i = "acctA" then Except.error "network error" else Except.ok [txA]

/-- A fetch environment in which account A's fetch raises and account B's
fetch returns one recorded and one new transaction. -/
def fetchOkB : String → Except String (List Txn) :=
  fun i => if i = "acctA" then Except.error "network error" else Except.ok [txA, txB]

/-- Initial sheet state of the worked examples: B's sheet exists and already
holds the row of `txA`; no other sheet exists; no account ever synced. -/
def stInit : SheetsState :=
  { sheets := fun n => if n = "SheetB" then some [header_row, buildRow txA] else none,
    last_sync := fun _ => none }

/-- A 100-character name (no truncation, since not longer than 100). -/
def longName100 : String := ⟨List.replicate 100 'a'⟩

/-- A 101-character name (long enough to trigger truncation). -/
def longName101 : String := ⟨List.replicate 101 'a'⟩

/-- Registry after registering a first account displayed as "Chase". -/
def chaseReg1 : List (String × RegAccount) :=
  (add_account [] "tok1" (some "Chase") ⟨"Chase Bank"⟩
    "2025-01-01T00:00:00" "20250101_000000").1

/-- Registry after registering a second account also displayed as "Chase". -/
def chaseReg2 : List (String × RegAccount) :=
  (add_account chaseReg1 "tok2" (some "Chase") ⟨"Chase Bank"⟩
    "2025-01-02T00:00:00" "20250102_000000").1

/-- A fixed `%Y%m%d_%H%M%S` timestamp shared by several registrations. -/
def tsX : String := "20250101_120000"

/-- Register, register, deregister the first, register again — all within
the same clock second. -/
def opsCex : List RegOp :=
  [RegOp.register "tokA" (some "A") ⟨"BankA"⟩ "nowA" tsX,
   RegOp.register "tokB" (some "B") ⟨"BankB"⟩ "nowB" tsX,
   RegOp.deregister (mkAccountId 1 tsX),
   RegOp.register "tokC" (some "C") ⟨"BankC"⟩ "nowC" tsX]

/-- The same operation sequence with pairwise-distinct timestamps. -/
def opsDistinct : List RegOp :=
  [RegOp.register "tokA" (some "A") ⟨"BankA"⟩ "nowA" "20250101_120000",
   RegOp.register "tokB" (some "B") ⟨"BankB"⟩ "nowB" "20250101_120001",
   RegOp.deregister (mkAccountId 1 "20250101_120000"),
   RegOp.register "tokC" (some "C") ⟨"BankC"⟩ "nowC" "20250101_120002"]

/-- A present legacy credential file holding a token. -/
def legacyD : LegacyData := ⟨some "legacy-token"⟩

/-- System state with an empty registry and the legacy file present. -/
def sysS0 : SysState := ⟨[], some legacyD, []⟩

theorem collectNew_go (frontier : List Cell) (ts : List Txn) (acc : List (List Cell)) :
    ts.foldl
      (fun acc t =>
        if Cell.str t.transaction_id ∈ frontier then acc else acc ++ [buildRow t])
      acc
    = acc ++
      (ts.filter (fun t => decide (Cell.str t.transaction_id ∉ frontier))).map buildRow := by
  induction ts generalizing acc with
  | nil => simp
  | cons t ts ih =>
    by_cases h : Cell.str t.transaction_id ∈ frontier
    · simp [List.foldl_cons, h, ih]
    · simp [List.foldl_cons, h, ih]

theorem collectNew_eq_filter (frontier : List Cell) (ts : List Txn) :
    collectNew frontier ts
      = (ts.filter (fun t => decide (Cell.str t.transaction_id ∉ frontier))).map buildRow := by
  simpa using collectNew_go frontier ts []

theorem ids_append (rows extra : List (List Cell)) (h : rows ≠ []) :
    get_existing_transaction_ids (rows ++ extra)
      = get_existing_transaction_ids rows ++ extra.filterMap List.head? := by
  cases rows with
  | nil => exact absurd rfl h
  | cons r rs => simp [get_existing_transaction_ids, List.filterMap_append]

theorem ensure_rows_some (v : List (List Cell)) : ensure_rows (some v) = v := rfl

/-- C1: running one account's sync twice with the same fetched batch appends
nothing the second time — every `transaction_id` written by the first pass
is read back into the dedup frontier (the sheet holds at least its header
row, as `create_sheet_if_not_exists` guarantees). -/
theorem sync_twice_idempotent (s : Option (List (List Cell))) (fetched : List Txn)
    (h : ensure_rows s ≠ []) :
    syncPass (some (syncPass s fetched)) fetched = syncPass s fetched := by
  have hmain :
      collectNew
        (get_existing_transaction_ids
          (ensure_rows s ++ collectNew (get_existing_transaction_ids (ensure_rows s)) fetched))
        fetched = [] := by
    rw [collectNew_eq_filter, List.map_eq_nil_iff, List.filter_eq_nil_iff]
    intro t ht
    simp only [decide_eq_true_eq, not_not]
    rw [ids_append _ _ h]
    by_cases hm : Cell.str t.transaction_id ∈ get_existing_transaction_ids (ensure_rows s)
    · exact List.mem_append_left _ hm
    · refine List.mem_append_right _ ?_
      rw [collectNew_eq_filter]
      refine List.mem_filterMap.mpr ⟨buildRow t, ?_, rfl⟩
      exact List.mem_map.mpr ⟨t, List.mem_filter.mpr ⟨ht, by simpa using hm⟩, rfl⟩
  simp only [syncPass, ensure_rows_some]
  rw [hmain, List.append_nil]

theorem sync_twice_idempotent_witness :
    ensure_rows (some [header_row]) ≠ [] ∧
    syncPass (some (syncPass (some [header_row]) [txA, txB])) [txA, txB]
      = syncPass (some [header_row]) [txA, txB] :=
  ⟨by decide, sync_twice_idempotent (some [header_row]) [txA, txB] (by decide)⟩

/-- C2: a sync pass appends exactly the rows of those fetched transactions
whose `transaction_id` is absent from the sheet's id column (header
excluded), classified, in fetch order; in particular a sheet already
holding id `t1` together with the batch `[t1, t2]` gains exactly the row of
`t2`. -/
theorem frontier_filter_exact :
    (∀ (s : Option (List (List Cell))) (fetched : List Txn),
      syncPass s fetched = ensure_rows s ++
        ((fetched.filter
          (fun t => decide (Cell.str t.transaction_id ∉
            get_existing_transaction_ids (ensure_rows s)))).map buildRow)) ∧
    syncPass (some [header_row, buildRow txA]) [txA, txB]
      = [header_row, buildRow txA, buildRow txB] := by
  constructor
  · intro s fetched
    simp [syncPass, collectNew_eq_filter]
  · decide

theorem firstMatch_append (rs ss : List ((String → Bool) × Tags)) (d : Tags) (n : String) :
    firstMatch (rs ++ ss) d n = firstMatch rs (firstMatch ss d n) n := by
  induction rs with
  | nil => simp [firstMatch]
  | cons r rs ih => by_cases h : r.1 n <;> simp [firstMatch, h, ih]

theorem firstMatch_db (db : List (String × String)) (d : Tags) (n : String) :
    firstMatch (db.map (fun p => (fun m => strContains m p.1, Tags.mk p.2 "Bellevue"))) d n
      = (match db.find? (fun p => strContains n p.1) with
         | some p => Tags.mk p.2 "Bellevue"
         | none => d) := by
  induction db with
  | nil => simp [firstMatch]
  | cons p db ih =>
    by_cases h : strContains n p.1
    · simp [firstMatch, h, List.find?_cons_of_pos]
    · simp [firstMatch, h, List.find?_cons_of_neg, ih]

/-- C3: the classifier is exactly first-match-wins evaluation of the ordered
rule chain over the lower-cased description (so an earlier matching rule
always decides, whatever later rules would say), and the concrete vectors
hold, including the empty and the missing description. -/
theorem classifier_first_match :
    (∀ t : Txn, categorize_transaction t
        = firstMatch classifierRules ⟨"Uncategorized", "Unknown"⟩ (loweredName t)) ∧
    categorize_transaction ⟨"x1", "2025-01-01", some "ZELLE TRANSFER TO J SMITH", 0⟩
      = ⟨"Zelle Payment", "Bellevue"⟩ ∧
    categorize_transaction ⟨"x2", "2025-01-01", some "CHECK # 1042", 0⟩
      = ⟨"Subcontractor Payout", "Bellevue"⟩ ∧
    categorize_transaction ⟨"x3", "2025-01-01", some "ALL-PRO PLUMBING INV 99", 0⟩
      = ⟨"Plumbing", "Bellevue"⟩ ∧
    categorize_transaction ⟨"x4", "2025-01-01", some "", 0⟩
      = ⟨"Uncategorized", "Unknown"⟩ ∧
    categorize_transaction ⟨"x5", "2025-01-01", none, 0⟩
      = ⟨"Uncategorized", "Unknown"⟩ := by
  refine ⟨?_, by decide, by decide, by decide, by decide, by decide⟩
  intro t
  simp only [categorize_transaction, classifierRules]
  rw [firstMatch_append, firstMatch_append, firstMatch_db]
  simp only [firstMatch]

/-- C10: a failing frontier read is swallowed: `get_existing_transaction_ids`
returns the empty set on any error and the pass proceeds with an empty
dedup frontier, so a transaction whose id is already in the sheet is
appended a second time (concrete execution shown: id `t1` ends up twice). -/
theorem frontier_read_failure_duplicates :
    (∀ e : String, get_existing_transaction_ids_r (Except.error e) = []) ∧
    (∀ rows : List (List Cell),
      get_existing_transaction_ids_r (Except.ok rows) = get_existing_transaction_ids rows) ∧
    syncPassFallible [header_row, buildRow txA] (Except.error "HttpError") [txA]
      = [header_row, buildRow txA, buildRow txA] ∧
    ((syncPassFallible [header_row, buildRow txA] (Except.error "HttpError") [txA]).filterMap
        List.head?).count (Cell.str "t1") = 2 :=
  ⟨fun _ => rfl, fun _ => rfl, by decide, by decide⟩

/-- C5 counterexample: a successful pass (the fetch returns `Except.ok`)
whose pending batch is empty does NOT advance `last_sync` — it stays
`none`, refuting the claim that every successful pass advances it. -/
theorem empty_batch_last_sync_cex :
    fetchCex "acctB" = Except.ok [txA] ∧
    collectNew (get_existing_transaction_ids (ensure_rows (stInit.sheets "SheetB"))) [txA] = [] ∧
    (syncStep "2025-06-01T00:00:00" fetchCex stInit accB).sheets "SheetB"
      = some [header_row, buildRow txA] ∧
    (syncStep "2025-06-01T00:00:00" fetchCex stInit accB).last_sync "acctB" = none :=
  ⟨rfl, by decide, by decide, by decide⟩

/-- C5 amended: after a successful fetch, `last_sync` is advanced exactly
when the pending batch is non-empty; an empty batch leaves the account's
`last_sync` unchanged (the update sits inside the non-empty branch). -/
theorem last_sync_advance_iff_new_rows (now : String)
    (fetch : String → Except String (List Txn)) (st : SheetsState) (a : AccountRef)
    (txns : List Txn) (hok : fetch a.account_id = Except.ok txns) :
    (collectNew (get_existing_transaction_ids (ensure_rows (st.sheets a.sheet_name))) txns = [] →
      (syncStep now fetch st a).last_sync a.account_id = st.last_sync a.account_id) ∧
    (collectNew (get_existing_transaction_ids (ensure_rows (st.sheets a.sheet_name))) txns ≠ [] →
      (syncStep now fetch st a).last_sync a.account_id = some now) := by
  constructor <;> intro h <;> simp [syncStep, hok, h]

theorem last_sync_advance_iff_new_rows_witness :
    fetchOkB accB.account_id = Except.ok [txA, txB] ∧
    collectNew (get_existing_transaction_ids (ensure_rows (stInit.sheets accB.sheet_name)))
      [txA, txB] ≠ [] ∧
    (syncStep "2025-06-01T00:00:00" fetchOkB stInit accB).last_sync accB.account_id
      = some "2025-06-01T00:00:00" :=
  ⟨rfl, by decide,
   (last_sync_advance_iff_new_rows "2025-06-01T00:00:00" fetchOkB stInit accB
      [txA, txB] rfl).2 (by decide)⟩

theorem syncStep_sheets_other (now : String) (fetch : String → Except String (List Txn))
    (st : SheetsState) (a : AccountRef) (nm : String) (h : nm ≠ a.sheet_name) :
    (syncStep now fetch st a).sheets nm = st.sheets nm := by
  cases hf : fetch a.account_id with
  | error e => simp [syncStep, hf, h]
  | ok txns =>
    by_cases hn :
        collectNew (get_existing_transaction_ids (ensure_rows (st.sheets a.sheet_name))) txns = []
    · simp [syncStep, hf, hn, h]
    · simp [syncStep, hf, hn, h]

theorem syncStep_last_other (now : String) (fetch : String → Except String (List Txn))
    (st : SheetsState) (a : AccountRef) (i : String) (h : i ≠ a.account_id) :
    (syncStep now fetch st a).last_sync i = st.last_sync i := by
  cases hf : fetch a.account_id with
  | error e => simp [syncStep, hf]
  | ok txns =>
    by_cases hn :
        collectNew (get_existing_transaction_ids (ensure_rows (st.sheets a.sheet_name))) txns = []
    · simp [syncStep, hf, hn]
    · simp [syncStep, hf, hn, h]

theorem sweep_sheets_other (now : String) (fetch : String → Except String (List Txn))
    (l : List AccountRef) (st : SheetsState) (nm : String)
    (h : ∀ x ∈ l, nm ≠ x.sheet_name) :
    (sweep now fetch st l).sheets nm = st.sheets nm := by
  induction l generalizing st with
  | nil => rfl
  | cons a l ih =>
    calc (sweep now fetch (syncStep now fetch st a) l).sheets nm
        = (syncStep now fetch st a).sheets nm :=
          ih _ (fun x hx => h x (List.mem_cons_of_mem _ hx))
      _ = st.sheets nm := syncStep_sheets_other now fetch st a nm (h a (List.mem_cons_self _ _))

theorem sweep_last_other (now : String) (fetch : String → Except String (List Txn))
    (l : List AccountRef) (st : SheetsState) (i : String)
    (h : ∀ x ∈ l, i ≠ x.account_id) :
    (sweep now fetch st l).last_sync i = st.last_sync i := by
  induction l generalizing st with
  | nil => rfl
  | cons a l ih =>
    calc (sweep now fetch (syncStep now fetch st a) l).last_sync i
        = (syncStep now fetch st a).last_sync i :=
          ih _ (fun x hx => h x (List.mem_cons_of_mem _ hx))
      _ = st.last_sync i := syncStep_last_other now fetch st a i (h a (List.mem_cons_self _ _))

/-- C4 amended: with pairwise-distinct sheet names and account ids, a fetch
failure on account `a` never aborts the sweep: an account `b` anywhere in
the list whose fetch succeeds still has its new rows appended, and — when
its pending batch is non-empty — its `last_sync` advanced. -/
theorem failure_isolation (now : String) (fetch : String → Except String (List Txn))
    (st : SheetsState) (pre post : List AccountRef) (a b : AccountRef)
    (txns : List Txn) (e : String)
    (_hmemA : a ∈ pre ++ b :: post) (_hAerr : fetch a.account_id = Except.error e)
    (hBok : fetch b.account_id = Except.ok txns)
    (hsheets : List.Pairwise (· ≠ ·) ((pre ++ b :: post).map AccountRef.sheet_name))
    (hids : List.Pairwise (· ≠ ·) ((pre ++ b :: post).map AccountRef.account_id))
    (hne : collectNew (get_existing_transaction_ids (ensure_rows (st.sheets b.sheet_name))) txns
      ≠ []) :
    (sweep now fetch st (pre ++ b :: post)).sheets b.sheet_name
      = some (ensure_rows (st.sheets b.sheet_name)
          ++ collectNew (get_existing_transaction_ids (ensure_rows (st.sheets b.sheet_name))) txns)
      ∧
    (sweep now fetch st (pre ++ b :: post)).last_sync b.account_id = some now := by
  rw [List.pairwise_map, List.pairwise_append] at hsheets hids
  have hpre_s : ∀ x ∈ pre, b.sheet_name ≠ x.sheet_name := fun x hx =>
    (hsheets.2.2 x hx b (List.mem_cons_self _ _)).symm
  have hpost_s : ∀ x ∈ post, b.sheet_name ≠ x.sheet_name := fun x hx =>
    (List.rel_of_pairwise_cons hsheets.2.1 hx)
  have hpost_i : ∀ x ∈ post, b.account_id ≠ x.account_id := fun x hx =>
    (List.rel_of_pairwise_cons hids.2.1 hx)
  have hsw : sweep now fetch st (pre ++ b :: post)
      = sweep now fetch (syncStep now fetch (sweep now fetch st pre) b) post := by
    simp [sweep, List.foldl_append]
  have hkeep : (sweep now fetch st pre).sheets b.sheet_name = st.sheets b.sheet_name :=
    sweep_sheets_other now fetch pre st b.sheet_name hpre_s
  have hstep_sheets :
      (syncStep now fetch (sweep now fetch st pre) b).sheets b.sheet_name
        = some (ensure_rows (st.sheets b.sheet_name)
            ++ collectNew (get_existing_transaction_ids (ensure_rows (st.sheets b.sheet_name)))
                txns) := by
    simp [syncStep, hBok, hkeep, hne]
  have hstep_last :
      (syncStep now fetch (sweep now fetch st pre) b).last_sync b.account_id = some now := by
    simp [syncStep, hBok, hkeep, hne]
  constructor
  · rw [hsw, sweep_sheets_other now fetch post _ b.sheet_name hpost_s, hstep_sheets]
  · rw [hsw, sweep_last_other now fetch post _ b.account_id hpost_i, hstep_last]

/-- C4 counterexample: account A's fetch fails and account B's succeeds, yet
B's `last_sync` is not advanced (B's batch is empty), refuting the claim as
universally stated. -/
theorem failure_isolation_cex :
    fetchCex "acctA" = Except.error "network error" ∧
    fetchCex "acctB" = Except.ok [txA] ∧
    (sweep "2025-06-01T00:00:00" fetchCex stInit [accA, accB]).sheets "SheetB"
      = some [header_row, buildRow txA] ∧
    (sweep "2025-06-01T00:00:00" fetchCex stInit [accA, accB]).last_sync "acctB" = none :=
  ⟨rfl, rfl, by decide, by decide⟩

theorem failure_isolation_witness :
    (accA ∈ [accA] ++ accB :: []) ∧
    fetchOkB accA.account_id = Except.error "network error" ∧
    fetchOkB accB.account_id = Except.ok [txA, txB] ∧
    collectNew (get_existing_transaction_ids (ensure_rows (stInit.sheets accB.sheet_name)))
      [txA, txB] ≠ [] ∧
    (sweep "2025-06-01T00:00:00" fetchOkB stInit ([accA] ++ accB :: [])).sheets accB.sheet_name
      = some (ensure_rows (stInit.sheets accB.sheet_name)
          ++ collectNew (get_existing_transaction_ids (ensure_rows (stInit.sheets accB.sheet_name)))
              [txA, txB]) ∧
    (sweep "2025-06-01T00:00:00" fetchOkB stInit ([accA] ++ accB :: [])).last_sync
        accB.account_id = some "2025-06-01T00:00:00" := by
  have h := failure_isolation "2025-06-01T00:00:00" fetchOkB stInit [accA] [] accA accB
    [txA, txB] "network error" (by decide) rfl rfl (by decide) (by decide) (by decide)
  exact ⟨by decide, rfl, rfl, by decide, h.1, h.2⟩

theorem string_eq_of_data_eq {s t : String} (h : s.data = t.data) : s = t := by
  cases s; cases t; exact congrArg String.mk h

theorem natReprAux_eq_digits (fuel : Nat) :
    ∀ n : Nat, n ≤ fuel → natReprAux fuel n = ((Nat.digits 10 n).map digitChar).reverse := by
  induction fuel with
  | zero =>
    intro n hn
    have : n = 0 := Nat.le_zero.mp hn
    subst this
    simp [natReprAux]
  | succ fuel ih =>
    intro n hn
    by_cases hz : n = 0
    · subst hz; simp [natReprAux]
    · have hpos : 0 < n := Nat.pos_of_ne_zero hz
      have hdiv : n / 10 ≤ fuel := by
        have := Nat.div_lt_self hpos (by norm_num : 1 < 10)
        omega
      rw [show natReprAux (fuel + 1) n = natReprAux fuel (n / 10) ++ [digitChar (n % 10)] by
            simp [natReprAux, hz],
          ih (n / 10) hdiv, Nat.digits_def' (by norm_num : 1 < 10) hpos]
      simp

theorem digitChar_inj_lt : ∀ d1, d1 < 10 → ∀ d2, d2 < 10 → digitChar d1 = digitChar d2 → d1 = d2 := by
  decide

theorem map_digitChar_inj :
    ∀ (l1 l2 : List Nat), (∀ d ∈ l1, d < 10) → (∀ d ∈ l2, d < 10) →
      l1.map digitChar = l2.map digitChar → l1 = l2 := by
  intro l1
  induction l1 with
  | nil =>
    intro l2 _ _ h
    cases l2 with
    | nil => rfl
    | cons d l => simp at h
  | cons d l ih =>
    intro l2 h1 h2 h
    cases l2 with
    | nil => simp at h
    | cons d2 l2 =>
      simp only [List.map_cons, List.cons.injEq] at h
      have hd : d = d2 :=
        digitChar_inj_lt d (h1 d (List.mem_cons_self _ _)) d2 (h2 d2 (List.mem_cons_self _ _)) h.1
      have hl : l = l2 :=
        ih l2 (fun x hx => h1 x (List.mem_cons_of_mem _ hx))
          (fun x hx => h2 x (List.mem_cons_of_mem _ hx)) h.2
      rw [hd, hl]

theorem natRepr_data_of_ne_zero {n : Nat} (hn : n ≠ 0) :
    (natRepr n).data = ((Nat.digits 10 n).map digitChar).reverse := by
  simp [natRepr, hn, natReprAux_eq_digits n n le_rfl]

theorem natRepr_ne_zero_of_map_eq {n : Nat} (hn : n ≠ 0) : (natRepr n).data ≠ ['0'] := by
  intro h
  rw [natRepr_data_of_ne_zero hn, List.reverse_eq_iff] at h
  have hd : Nat.digits 10 n = [0] := by
    cases hds : Nat.digits 10 n with
    | nil => rw [hds] at h; simp at h
    | cons d t =>
      rw [hds] at h
      simp only [List.reverse_cons, List.map_cons] at h
      cases t with
      | nil =>
        simp only [List.map_nil, List.reverse_nil, List.nil_append, List.cons.injEq] at h
        have hlt : d < 10 :=
          Nat.digits_lt_base (by norm_num) (by rw [hds]; exact List.mem_cons_self d [])
        have : d = 0 := digitChar_inj_lt d hlt 0 (by norm_num) h.1
        rw [this]
      | cons d2 t2 => simp at h
  have := Nat.ofDigits_digits 10 n
  rw [hd] at this
  simp [Nat.ofDigits_singleton] at this
  exact hn this.symm

theorem natRepr_inj : ∀ m n : Nat, natRepr m = natRepr n → m = n := by
  intro m n h
  have hd := congrArg String.data h
  by_cases hm : m = 0 <;> by_cases hn : n = 0
  · rw [hm, hn]
  · subst hm
    exact absurd hd.symm (by simpa [natRepr] using natRepr_ne_zero_of_map_eq hn)
  · subst hn
    exact absurd hd (by simpa [natRepr] using natRepr_ne_zero_of_map_eq hm)
  · rw [natRepr_data_of_ne_zero hm, natRepr_data_of_ne_zero hn, List.reverse_eq_iff,
      List.reverse_reverse] at hd
    have hdig : Nat.digits 10 m = Nat.digits 10 n :=
      map_digitChar_inj _ _ (fun d hdm => Nat.digits_lt_base (by norm_num) hdm)
        (fun d hdn => Nat.digits_lt_base (by norm_num) hdn) hd
    have h1 := Nat.ofDigits_digits 10 m
    have h2 := Nat.ofDigits_digits 10 n
    rw [hdig] at h1
    rw [← h1, h2]

theorem candName_inj (orig : String) {j k : Nat} (h : candName orig j = candName orig k) :
    j = k := by
  have hd := congrArg String.data h
  simp only [candName, String.data_append] at hd
  have hjk : (natRepr j).data = (natRepr k).data := List.append_cancel_left hd
  exact natRepr_inj j k (string_eq_of_data_eq hjk)

theorem exists_candName_free (existing : List String) (orig : String) (start : Nat) :
    ∃ j, start ≤ j ∧ j < start + (existing.length + 1) ∧ candName orig j ∉ existing := by
  by_contra hc
  push_neg at hc
  have hinj : Function.Injective
      (fun i : Fin (existing.length + 1) => candName orig (start + i)) := by
    intro i1 i2 h
    have := candName_inj orig h
    exact Fin.ext (by omega)
  have hsub :
      Finset.image (fun i : Fin (existing.length + 1) => candName orig (start + i)) Finset.univ
        ⊆ existing.toFinset := by
    intro s hs
    obtain ⟨i, _, rfl⟩ := Finset.mem_image.mp hs
    exact List.mem_toFinset.mpr (hc (start + i) (by omega) (by omega))
  have hcard := Finset.card_le_card hsub
  rw [Finset.card_image_of_injective _ hinj, Finset.card_univ, Fintype.card_fin] at hcard
  have := List.toFinset_card_le existing
  omega

theorem searchFreeFuel_found (existing : List String) (orig : String) :
    ∀ (fuel counter : Nat),
      (∃ j, counter ≤ j ∧ j < counter + fuel ∧ candName orig j ∉ existing) →
      ∃ j, counter ≤ j ∧ candName orig j ∉ existing ∧
        (∀ i, counter ≤ i → i < j → candName orig i ∈ existing) ∧
        searchFreeFuel existing orig counter fuel = candName orig j := by
  intro fuel
  induction fuel with
  | zero =>
    intro counter hex
    obtain ⟨j, h1, h2, _⟩ := hex
    omega
  | succ fuel ih =>
    intro counter hex
    by_cases hc : candName orig counter ∈ existing
    · obtain ⟨j, hj1, hj2, hj3⟩ := hex
      have hjne : j ≠ counter := fun he => hj3 (he ▸ hc)
      obtain ⟨j', h1, h2, h3, h4⟩ := ih (counter + 1) ⟨j, by omega, by omega, hj3⟩
      refine ⟨j', by omega, h2, ?_, ?_⟩
      · intro i hi1 hi2
        rcases Nat.eq_or_lt_of_le hi1 with he | hlt
        · rw [← he]; exact hc
        · exact h3 i hlt hi2
      · rw [show searchFreeFuel existing orig counter (fuel + 1)
              = searchFreeFuel existing orig (counter + 1) fuel by simp [searchFreeFuel, hc]]
        exact h4
    · exact ⟨counter, le_rfl, hc, fun i hi1 hi2 => absurd hi2 (by omega),
        by simp [searchFreeFuel, hc]⟩

theorem generate_sheet_name_not_mem (existing : List String) (inst : String)
    (nm : Option String) : generate_sheet_name existing inst nm ∉ existing := by
  by_cases hc : clean_base_name inst nm ∈ existing
  · obtain ⟨j, _, hfree, _, heq⟩ :=
      searchFreeFuel_found existing (clean_base_name inst nm) (existing.length + 1) 1
        (exists_candName_free existing (clean_base_name inst nm) 1)
    rw [show generate_sheet_name existing inst nm
        = searchFreeFuel existing (clean_base_name inst nm) 1 (existing.length + 1) by
          simp [generate_sheet_name, hc], heq]
    exact hfree
  · rw [show generate_sheet_name existing inst nm = clean_base_name inst nm by
      simp [generate_sheet_name, hc]]
    exact hc

theorem generate_sheet_name_cases (existing : List String) (inst : String)
    (nm : Option String) :
    (clean_base_name inst nm ∉ existing →
      generate_sheet_name existing inst nm = clean_base_name inst nm) ∧
    (clean_base_name inst nm ∈ existing →
      ∃ k, 1 ≤ k ∧
        generate_sheet_name existing inst nm = candName (clean_base_name inst nm) k ∧
        candName (clean_base_name inst nm) k ∉ existing ∧
        (∀ i, 1 ≤ i → i < k → candName (clean_base_name inst nm) i ∈ existing)) := by
  constructor
  · intro h
    simp [generate_sheet_name, h]
  · intro h
    obtain ⟨j, hj1, hfree, hleast, heq⟩ :=
      searchFreeFuel_found existing (clean_base_name inst nm) (existing.length + 1) 1
        (exists_candName_free existing (clean_base_name inst nm) 1)
    exact ⟨j, hj1, by simp [generate_sheet_name, h, heq], hfree, hleast⟩

theorem capLength_le_100 (s : String) : (capLength s).length ≤ 100 := by
  unfold capLength
  split
  · rw [String.length_append, String.length_mk, List.length_take]
    have : ("..." : String).length = 3 := rfl
    omega
  · omega

theorem clean_base_name_le_100 (inst : String) (nm : Option String) :
    (clean_base_name inst nm).length ≤ 100 :=
  capLength_le_100 _

theorem collapseWs_cons_ws_true (a : Char) (l : List Char) (h : a.isWhitespace = true) :
    collapseWs true (a :: l) = collapseWs true l := by
  simp [collapseWs, h]

theorem collapseWs_cons_ws_false (a : Char) (l : List Char) (h : a.isWhitespace = true) :
    collapseWs false (a :: l) = ' ' :: collapseWs true l := by
  simp [collapseWs, h]

theorem collapseWs_cons_nws (b : Bool) (a : Char) (l : List Char)
    (h : a.isWhitespace = false) : collapseWs b (a :: l) = a :: collapseWs false l := by
  simp [collapseWs, h]

theorem collapseWs_mem :
    ∀ (l : List Char) (b : Bool) (c : Char), c ∈ collapseWs b l → c ∈ l ∨ c = ' ' := by
  intro l
  induction l with
  | nil => intro b c h; simp [collapseWs] at h
  | cons a l ih =>
    intro b c h
    cases hw : a.isWhitespace with
    | true =>
      cases b with
      | true =>
        rw [collapseWs_cons_ws_true a l hw] at h
        rcases ih true c h with h1 | h2
        · exact Or.inl (List.mem_cons_of_mem _ h1)
        · exact Or.inr h2
      | false =>
        rw [collapseWs_cons_ws_false a l hw] at h
        rcases List.mem_cons.mp h with he | hm
        · exact Or.inr he
        · rcases ih true c hm with h1 | h2
          · exact Or.inl (List.mem_cons_of_mem _ h1)
          · exact Or.inr h2
    | false =>
      rw [collapseWs_cons_nws b a l hw] at h
      rcases List.mem_cons.mp h with he | hm
      · exact Or.inl (he ▸ List.mem_cons_self _ _)
      · rcases ih false c hm with h1 | h2
        · exact Or.inl (List.mem_cons_of_mem _ h1)
        · exact Or.inr h2

theorem trimWs_subset (l : List Char) : ∀ c ∈ trimWs l, c ∈ l := by
  intro c hc
  unfold trimWs at hc
  rw [List.mem_reverse] at hc
  have h1 := (List.dropWhile_sublist _).subset hc
  rw [List.mem_reverse] at h1
  exact (List.dropWhile_sublist _).subset h1

theorem sanitized_chars_allowed (base : String) (c : Char)
    (h : c ∈ trimWs (collapseWs false (base.data.filter keepChar))) : keepChar c = true := by
  have h1 := trimWs_subset _ c h
  rcases collapseWs_mem _ false c h1 with h2 | h2
  · exact (List.mem_filter.mp h2).2
  · rw [h2]; rfl

/-- C6: ledger-name generation follows the stated algorithm: the sanitized
base keeps only word characters, whitespace and hyphens (then collapsed,
trimmed, and capped at 97 + "..." past 100 characters — concrete vectors
below), and on collision the loop returns the least-numbered free candidate
`base k`; two accounts both displayed "Chase" get "Chase" and "Chase 1". -/
theorem ledger_name_algorithm :
    (∀ (base : String) (c : Char),
      c ∈ trimWs (collapseWs false (base.data.filter keepChar)) → keepChar c = true) ∧
    (∀ (existing : List String) (inst : String) (nm : Option String),
      (clean_base_name inst nm ∉ existing →
        generate_sheet_name existing inst nm = clean_base_name inst nm) ∧
      (clean_base_name inst nm ∈ existing →
        ∃ k, 1 ≤ k ∧
          generate_sheet_name existing inst nm = candName (clean_base_name inst nm) k ∧
          candName (clean_base_name inst nm) k ∉ existing ∧
          (∀ i, 1 ≤ i → i < k → candName (clean_base_name inst nm) i ∈ existing))) ∧
    generate_sheet_name [] "X" (some "  Ch@se   Ba-nk_1!  ") = "Chse Ba-nk_1" ∧
    generate_sheet_name [] "ignored" (some longName101)
      = (⟨List.replicate 97 'a'⟩ : String) ++ "..." ∧
    generate_sheet_name [] "Chase Bank" (some "Chase") = "Chase" ∧
    generate_sheet_name ["Chase"] "Chase Bank" (some "Chase") = "Chase 1" ∧
    chaseReg2.map (fun p => p.2.sheet_name) = ["Chase", "Chase 1"] :=
  ⟨sanitized_chars_allowed, generate_sheet_name_cases,
   by decide, by decide, by decide, by decide, by decide⟩

theorem ledger_name_algorithm_witness :
    keepChar 'C' = true ∧
    (∃ k, 1 ≤ k ∧
      generate_sheet_name ["Chase"] "Chase Bank" (some "Chase")
        = candName (clean_base_name "Chase Bank" (some "Chase")) k ∧
      candName (clean_base_name "Chase Bank" (some "Chase")) k ∉ ["Chase"] ∧
      (∀ i, 1 ≤ i → i < k →
        candName (clean_base_name "Chase Bank" (some "Chase")) i ∈ ["Chase"])) :=
  ⟨ledger_name_algorithm.1 "Chase" 'C' (by decide),
   (ledger_name_algorithm.2.1 ["Chase"] "Chase Bank" (some "Chase")).2 (by decide)⟩

/-- C7 counterexample: a 100-character display name registered twice — the
second ledger name is the first plus the collision suffix " 1", 102
characters long, refuting the 100-character bound in the claim. -/
theorem ledger_name_over_100_cex :
    generate_sheet_name [longName100] "X" (some longName100) = longName100 ++ " 1" ∧
    (generate_sheet_name [longName100] "X" (some longName100)).length = 102 :=
  ⟨by decide, by decide⟩

/-- C7 amended: the generated ledger name is unique among the live
accounts' ledger names; the sanitized base is at most 100 characters, and
the final name is either that base or the base plus a collision-counter
suffix (which can push it past 100). -/
theorem ledger_name_unique_shape (existing : List String) (inst : String)
    (nm : Option String) :
    generate_sheet_name existing inst nm ∉ existing ∧
    (clean_base_name inst nm).length ≤ 100 ∧
    (generate_sheet_name existing inst nm = clean_base_name inst nm ∨
      ∃ k, 1 ≤ k ∧ generate_sheet_name existing inst nm = candName (clean_base_name inst nm) k) := by
  refine ⟨generate_sheet_name_not_mem _ _ _, clean_base_name_le_100 _ _, ?_⟩
  by_cases hc : clean_base_name inst nm ∈ existing
  · obtain ⟨k, hk1, heq, _, _⟩ := (generate_sheet_name_cases existing inst nm).2 hc
    exact Or.inr ⟨k, hk1, heq⟩
  · exact Or.inl ((generate_sheet_name_cases existing inst nm).1 hc)

theorem mkAccountId_ts_eq {k1 k2 : Nat} {ts1 ts2 : String} (hlen : ts1.length = ts2.length)
    (h : mkAccountId k1 ts1 = mkAccountId k2 ts2) : ts1 = ts2 := by
  have hd := congrArg String.data h
  simp only [mkAccountId, String.data_append, List.append_assoc] at hd
  rw [show "account_".data ++ ((natRepr k1).data ++ ("_".data ++ ts1.data))
        = ("account_".data ++ (natRepr k1).data ++ "_".data) ++ ts1.data by
        simp [List.append_assoc],
      show "account_".data ++ ((natRepr k2).data ++ ("_".data ++ ts2.data))
        = ("account_".data ++ (natRepr k2).data ++ "_".data) ++ ts2.data by
        simp [List.append_assoc]] at hd
  have hlen' : ts1.data.length = ts2.data.length := hlen
  exact string_eq_of_data_eq (List.append_inj' hd hlen').2

theorem runOps_snd_map (ops : List RegOp) :
    ∀ reg, ((runOps reg ops).2).map Prod.snd = registerTsList ops := by
  induction ops with
  | nil => intro reg; rfl
  | cons op rest ih =>
    intro reg
    cases op with
    | register tok nm info now ts => simp [runOps, registerTsList, ih]
    | deregister i => simp [runOps, registerTsList, ih]

theorem dictInsert_keys (k : String) (v : RegAccount) :
    ∀ (reg : List (String × RegAccount)) (x : String),
      x ∈ (dictInsert k v reg).map Prod.fst → x = k ∨ x ∈ reg.map Prod.fst := by
  intro reg
  induction reg with
  | nil =>
    intro x hx
    simp only [dictInsert, List.map_cons, List.map_nil, List.mem_cons,
      List.not_mem_nil, or_false] at hx
    exact Or.inl hx
  | cons p reg ih =>
    intro x hx
    by_cases hk : p.1 = k
    · rw [show dictInsert k v (p :: reg) = (k, v) :: reg by
          cases p; simp_all [dictInsert]] at hx
      rw [List.map_cons, List.mem_cons] at hx
      rcases hx with he | hm
      · exact Or.inl he
      · exact Or.inr (by rw [List.map_cons, List.mem_cons]; exact Or.inr hm)
    · rw [show dictInsert k v (p :: reg) = p :: dictInsert k v reg by
          cases p; simp_all [dictInsert]] at hx
      rw [List.map_cons, List.mem_cons] at hx
      rcases hx with he | hm
      · exact Or.inr (by rw [List.map_cons, List.mem_cons]; exact Or.inl he)
      · rcases ih x hm with h1 | h2
        · exact Or.inl h1
        · exact Or.inr (by rw [List.map_cons, List.mem_cons]; exact Or.inr h2)

theorem remove_account_keys (reg : List (String × RegAccount)) (i : String) (x : String)
    (hx : x ∈ ((remove_account reg i).1).map Prod.fst) : x ∈ reg.map Prod.fst := by
  unfold remove_account at hx
  by_cases hm : i ∈ reg.map Prod.fst
  · simp only [hm, if_true] at hx
    obtain ⟨p, hp, rfl⟩ := List.mem_map.mp hx
    exact List.mem_map.mpr ⟨p, (List.mem_filter.mp hp).1, rfl⟩
  · simpa [hm] using hx

theorem runOps_keys_subset (ops : List RegOp) :
    ∀ (reg : List (String × RegAccount)) (k : String),
      k ∈ ((runOps reg ops).1).map Prod.fst →
      k ∈ reg.map Prod.fst ∨ k ∈ ((runOps reg ops).2).map (fun p => mkAccountId p.1 p.2) := by
  induction ops with
  | nil => intro reg k hk; exact Or.inl hk
  | cons op rest ih =>
    intro reg k hk
    cases op with
    | register tok nm info now ts =>
      simp only [runOps] at hk ⊢
      rcases ih _ k hk with h1 | h2
      · rcases dictInsert_keys _ _ _ _ (by
            simpa [add_account] using h1) with he | hm
        · exact Or.inr (by simp [he])
        · exact Or.inl hm
      · exact Or.inr (List.mem_cons_of_mem _ h2)
    | deregister i =>
      simp only [runOps] at hk ⊢
      rcases ih _ k hk with h1 | h2
      · exact Or.inl (remove_account_keys reg i k h1)
      · exact Or.inr h2

/-- C8 counterexample: with an unchanged clock second, register, register,
deregister-the-first, register assigns `account_2_<ts>` twice — the third
assigned id repeats the second and its `dict` insert overwrites the still
registered second account (the registry ends with one key). -/
theorem account_id_reuse_cex :
    assignedIds [] opsCex = [mkAccountId 1 tsX, mkAccountId 2 tsX, mkAccountId 2 tsX] ∧
    ¬ List.Pairwise (· ≠ ·) (assignedIds [] opsCex) ∧
    ((runOps [] opsCex).1).map Prod.fst = [mkAccountId 2 tsX] :=
  ⟨by decide, by decide, by decide⟩

/-- C8 amended: provided the registrations' timestamps are pairwise
distinct (they are second-resolution strings of the fixed 15-character
`%Y%m%d_%H%M%S` shape), every assigned account id differs from every other
assigned id, and every live registry key is an assigned id — so a fresh id
never collides with a live or past one.  Registrations within the same
clock second after a deregistration can reuse an id (see the
counterexample). -/
theorem account_id_unique_amended (ops : List RegOp)
    (hdist : List.Pairwise (· ≠ ·) (registerTsList ops))
    (hlen : ∀ ts ∈ registerTsList ops, ts.length = 15) :
    List.Pairwise (· ≠ ·) (assignedIds [] ops) ∧
    ∀ k ∈ ((runOps [] ops).1).map Prod.fst, k ∈ assignedIds [] ops := by
  constructor
  · have hts : List.Pairwise (fun p q : Nat × String => p.2 ≠ q.2) (runOps [] ops).2 := by
      have := hdist
      rw [← runOps_snd_map ops []] at this
      exact List.pairwise_map.mp this
    have hmem : ∀ p ∈ (runOps [] ops).2, p.2.length = 15 := by
      intro p hp
      exact hlen p.2 (by
        rw [← runOps_snd_map ops []]
        exact List.mem_map_of_mem Prod.snd hp)
    rw [assignedIds, List.pairwise_map]
    refine hts.imp_of_mem ?_
    intro p q hp hq hne he
    exact hne (mkAccountId_ts_eq ((hmem p hp).trans (hmem q hq).symm) he)
  · intro k hk
    rcases runOps_keys_subset ops [] k hk with h1 | h2
    · simp at h1
    · exact h2

theorem account_id_unique_amended_witness :
    List.Pairwise (· ≠ ·) (registerTsList opsDistinct) ∧
    (∀ ts ∈ registerTsList opsDistinct, ts.length = 15) ∧
    List.Pairwise (· ≠ ·) (assignedIds [] opsDistinct) ∧
    ∀ k ∈ ((runOps [] opsDistinct).1).map Prod.fst, k ∈ assignedIds [] opsDistinct := by
  have h := account_id_unique_amended opsDistinct (by decide) (by decide)
  exact ⟨by decide, by decide, h.1, h.2⟩

theorem dictInsert_length_of_not_mem (k : String) (v : RegAccount) :
    ∀ (reg : List (String × RegAccount)), k ∉ reg.map Prod.fst →
      (dictInsert k v reg).length = reg.length + 1 := by
  intro reg
  induction reg with
  | nil => intro _; rfl
  | cons p reg ih =>
    intro hk
    rw [List.map_cons, List.mem_cons] at hk
    push_neg at hk
    rw [show dictInsert k v (p :: reg) = p :: dictInsert k v reg by
        cases p; simp_all [dictInsert, Ne.symm hk.1]]
    simp [ih hk.2]

theorem dictInsert_mem_self (k : String) (v : RegAccount) :
    ∀ reg : List (String × RegAccount), (k, v) ∈ dictInsert k v reg := by
  intro reg
  induction reg with
  | nil => exact List.mem_cons_self _ _
  | cons p reg ih =>
    by_cases hk : p.1 = k
    · rw [show dictInsert k v (p :: reg) = (k, v) :: reg by cases p; simp_all [dictInsert]]
      exact List.mem_cons_self _ _
    · rw [show dictInsert k v (p :: reg) = p :: dictInsert k v reg by
        cases p; simp_all [dictInsert]]
      exact List.mem_cons_of_mem _ ih

/-- C9: legacy migration is single-shot and fails open.  With the legacy
file present and a non-empty token inside, a successful run registers
exactly one new account named "Legacy Bank Account" and moves the file to
a backup (never deleting its contents); once the file is gone every later
call returns failure and changes nothing; and a missing or falsy (empty)
token, a provider error, or a rename failure each return failure and leave
the legacy file in place. -/
theorem migrate_legacy_single_shot :
    (∀ (s : SysState) (d : LegacyData) (tok : String) (info : PlaidInfo) (now ts bts : String),
      s.legacy = some d → d.access_token = some tok → tok ≠ "" →
      mkAccountId (s.registry.length + 1) ts ∉ s.registry.map Prod.fst →
      (migrate_legacy_token (Except.ok info) true now ts bts s).1 = true ∧
      ((migrate_legacy_token (Except.ok info) true now ts bts s).2).registry.length
        = s.registry.length + 1 ∧
      (∃ entry ∈ ((migrate_legacy_token (Except.ok info) true now ts bts s).2).registry,
        entry.2.account_name = "Legacy Bank Account") ∧
      ((migrate_legacy_token (Except.ok info) true now ts bts s).2).legacy = none ∧
      ((migrate_legacy_token (Except.ok info) true now ts bts s).2).backups
        = s.backups ++ [("_access_token_backup_" ++ bts ++ ".json", d)]) ∧
    (∀ (s : SysState) (plaid : Except String PlaidInfo) (renameOk : Bool) (now ts bts : String),
      s.legacy = none → migrate_legacy_token plaid renameOk now ts bts s = (false, s)) ∧
    (∀ (s : SysState) (d : LegacyData) (plaid : Except String PlaidInfo) (renameOk : Bool)
        (now ts bts : String), s.legacy = some d →
      (d.access_token = none → migrate_legacy_token plaid renameOk now ts bts s = (false, s)) ∧
      (d.access_token = some "" →
        migrate_legacy_token plaid renameOk now ts bts s = (false, s)) ∧
      (∀ e, plaid = Except.error e →
        migrate_legacy_token plaid renameOk now ts bts s = (false, s)) ∧
      (renameOk = false → (migrate_legacy_token plaid renameOk now ts bts s).1 = false ∧
        ((migrate_legacy_token plaid renameOk now ts bts s).2).legacy = s.legacy ∧
        ((migrate_legacy_token plaid renameOk now ts bts s).2).backups = s.backups)) := by
  refine ⟨?_, ?_, ?_⟩
  · intro s d tok info now ts bts hleg htok hne hfresh
    simp only [migrate_legacy_token, hleg, htok, hne, if_false, add_account]
    refine ⟨rfl, ?_, ?_, rfl, rfl⟩
    · exact dictInsert_length_of_not_mem _ _ s.registry hfresh
    · exact ⟨_, dictInsert_mem_self _ _ s.registry, rfl⟩
  · intro s plaid renameOk now ts bts hleg
    simp [migrate_legacy_token, hleg]
  · intro s d plaid renameOk now ts bts hleg
    refine ⟨?_, ?_, ?_, ?_⟩
    · intro htok
      simp [migrate_legacy_token, hleg, htok]
    · intro htok
      simp [migrate_legacy_token, hleg, htok]
    · intro e hp
      cases htok : d.access_token with
      | none => simp [migrate_legacy_token, hleg, htok]
      | some tok =>
        by_cases hte : tok = ""
        · simp [migrate_legacy_token, hleg, htok, hte]
        · simp [migrate_legacy_token, hleg, htok, hte, hp]
    · intro hr
      subst hr
      cases htok : d.access_token with
      | none => simp [migrate_legacy_token, hleg, htok]
      | some tok =>
        by_cases hte : tok = ""
        · simp [migrate_legacy_token, hleg, htok, hte]
        · cases hp : plaid with
          | error e => simp [migrate_legacy_token, hleg, htok, hte, hp]
          | ok info => simp [migrate_legacy_token, hleg, htok, hte, hp]

theorem migrate_legacy_single_shot_witness :
    sysS0.legacy = some legacyD ∧
    legacyD.access_token = some "legacy-token" ∧
    ("legacy-token" : String) ≠ "" ∧
    mkAccountId 1 "20250101_000000" ∉ sysS0.registry.map Prod.fst ∧
    (migrate_legacy_token (Except.ok ⟨"Legacy Bank"⟩) true "2025-01-01T00:00:00"
        "20250101_000000" "20250101_000001" sysS0).1 = true ∧
    ((migrate_legacy_token (Except.ok ⟨"Legacy Bank"⟩) true "2025-01-01T00:00:00"
        "20250101_000000" "20250101_000001" sysS0).2).registry.length = 1 ∧
    (∃ entry ∈ ((migrate_legacy_token (Except.ok ⟨"Legacy Bank"⟩) true "2025-01-01T00:00:00"
        "20250101_000000" "20250101_000001" sysS0).2).registry,
      entry.2.account_name = "Legacy Bank Account") ∧
    ((migrate_legacy_token (Except.ok ⟨"Legacy Bank"⟩) true "2025-01-01T00:00:00"
        "20250101_000000" "20250101_000001" sysS0).2).legacy = none := by
  have h := migrate_legacy_single_shot.1 sysS0 legacyD "legacy-token" ⟨"Legacy Bank"⟩
    "2025-01-01T00:00:00" "20250101_000000" "20250101_000001" rfl rfl (by decide) (by decide)
  exact ⟨rfl, rfl, by decide, by decide, h.1, h.2.1, h.2.2.1, h.2.2.2.1⟩
